import Mathlib

/-!
# Verification of the sockx connection/broadcast core

Shallow embedding of `sockx.go` (package sockx): a WebSocket server with
namespaces, rooms, event handlers and broadcast emits.  Pointers are
modelled as natural-number identities; Go maps are modelled either as
association lists (when insertion order and allocation matter) or as
functions with pointwise update; Go channels (`chan Message` with capacity)
are modelled as bounded FIFO lists.  Opaque `interface{}` payloads are
modelled by a JSON value type, matching the wire format used by the pumps.
-/

namespace Sockx

/-- JSON values, the payload domain of `interface\x7b\x7d` data travelling
through `encoding/json` (numbers are decoded as `float64` in Go; here the
numeric leaf is kept abstract as an integer-tagged atom since no claim
depends on numeric representation). -/
inductive Json where
  | null : Json
  | bool : Bool → Json
  | num : Int → Json
  | str : String → Json
  | arr : List Json → Json
  | obj : List (String × Json) → Json

/-- `Message` from sockx.go: the wire envelope.  `Event` and `Data` are
always serialized; `Namespace` and `Room` carry `omitempty`, so the empty
string plays the role of Go's zero value / absent field. -/
structure Message where
  Event : String
  Data : Json
  Namespace : String
  Room : String

/-! ## generateID / randomString (sockx.go lines 306-320) -/

/-- The character table of `randomString`. -/
def chars : String := "abcdefghijklmnopqrstuvwxyzABCDEFGHIJKLMNOPQRSTUVWXYZ0123456789"

/-- `randomString(n)` from sockx.go: despite its name it is deterministic,
`result[i] = chars[i % len(chars)]`. -/
def randomString (n : Nat) : String :=
  String.mk ((List.range n).map (fun i => chars.toList.getD (i % chars.length) 'a'))

/-- `generateID()` from sockx.go: `randomString(16)`. -/
def generateID : String := randomString 16

/-- The `Client` value constructed by `ServeWebSocket` for the `k`-th
accepted connection (sockx.go lines 289-296), restricted to the fields a
freshness claim can observe: its `ID` string.  The parameter `k` records
which accept produced it; the code gives every accept the same ID. -/
def acceptClientID (_k : Nat) : String := generateID

/-! ## Bounded outbound queue (`send chan Message`, capacity 256) -/

/-- A client's outbound queue: the buffered contents of `send chan Message`
together with the channel capacity (256 in `ServeWebSocket`). -/
structure SQueue where
  buf : List Message
  cap : Nat

/-- The non-blocking push used by all three emits
(`select \x7b case client.send <- msg: default: \x7d`): when the buffer has
free capacity the message is enqueued at the tail, otherwise the push is
dropped and the queue is unchanged.  The function is total — it returns in
either case and signals nothing to the caller, which is the embedding of
"never blocks, no error". -/
def trySend (q : SQueue) (m : Message) : SQueue :=
  if q.buf.length < q.cap then ⟨q.buf ++ [m], q.cap⟩ else q

/-! ## Get-or-create registries (Server.Namespace, sockx.go lines 72-89) -/

/-- The `Server`'s namespace registry: `namespaces map[string]*Namespace`
with pointer identities drawn from an allocation counter. -/
structure Registry where
  entries : List (String × Nat)
  nextId : Nat
deriving DecidableEq, Repr

/-- `Server.Namespace(name)` from sockx.go: return the existing instance if
present, otherwise construct a fresh one and insert it.  Returns the
instance (pointer identity) and the updated registry. -/
def serverNamespace (s : Registry) (name : String) : Nat × Registry :=
  match s.entries.lookup name with
  | some ns => (ns, s)
  | none => (s.nextId, ⟨s.entries ++ [(name, s.nextId)], s.nextId + 1⟩)

/-! ## Namespace / Room / Client membership state

One namespace together with the heap of `Room` objects it points to and
the heap of client mirrors.  `Room` structs live behind pointers in Go
(`rooms map[string]*Room`), so the namespace stores name→pointer and the
room contents live in a separate heap, indexed by pointer identity.
Client sets (`map[*Client]bool`) are modelled as duplicate-free lists of
client identities with idempotent insert and key-deleting removal, the
exact semantics of a Go map with `bool` values used as a set. -/

/-- Idempotent set insert, the meaning of `m[k] = true` on a Go map used
as a set. -/
def setInsert {α : Type} [DecidableEq α] (c : α) (l : List α) : List α :=
  if c ∈ l then l else l ++ [c]

/-- The fields of one `Namespace` struct that the membership claims
observe: its name, its client set and its room map (name → Room pointer),
plus the allocation counter for fresh Room pointers. -/
structure NsObj where
  name : String
  clients : List Nat
  roomMap : List (String × Nat)
  nextRoomId : Nat

/-- The whole membership state: the namespace struct, the heap of Room
client sets (pointer → member list) and the heap of client room mirrors
(client pointer → `c.rooms` key list). -/
structure Sock where
  ns : NsObj
  rooms : Nat → List Nat
  clientRooms : Nat → List String

/-- The state of a freshly created namespace: no clients, no rooms, and
every client mirror empty (clients are created with
`rooms: make(map[string]bool)`). -/
def sockInit : Sock :=
  { ns := { name := "/", clients := [], roomMap := [], nextRoomId := 0 }
    rooms := fun _ => []
    clientRooms := fun _ => [] }

/-- `Namespace.Room(name)` from sockx.go (lines 119-134): get-or-create a
room in the namespace's room map; a fresh room starts with an empty client
set (`clients: make(map[*Client]bool)`). -/
def nsRoom (s : Sock) (name : String) : Nat × Sock :=
  match s.ns.roomMap.lookup name with
  | some ri => (ri, s)
  | none =>
      (s.ns.nextRoomId,
       { s with
           ns := { s.ns with
                     roomMap := s.ns.roomMap ++ [(name, s.ns.nextRoomId)]
                     nextRoomId := s.ns.nextRoomId + 1 }
           rooms := Function.update s.rooms s.ns.nextRoomId [] })

/-- `Room.addClient` (lines 183-187): `r.clients[client] = true`. -/
def roomAddClient (s : Sock) (ri : Nat) (c : Nat) : Sock :=
  { s with rooms := Function.update s.rooms ri (setInsert c (s.rooms ri)) }

/-- `Room.removeClient` (lines 190-194): `delete(r.clients, client)`. -/
def roomRemoveClient (s : Sock) (ri : Nat) (c : Nat) : Sock :=
  { s with rooms := Function.update s.rooms ri ((s.rooms ri).filter (· ≠ c)) }

/-- `Namespace.addClient` (lines 137-141): `ns.clients[client] = true`. -/
def nsAddClient (s : Sock) (c : Nat) : Sock :=
  { s with ns := { s.ns with clients := setInsert c s.ns.clients } }

/-- `Namespace.removeClient` (lines 144-148): `delete(ns.clients, client)`.
Note: it removes the client from the namespace's client set only; it does
not touch any room. -/
def nsRemoveClient (s : Sock) (c : Nat) : Sock :=
  { s with ns := { s.ns with clients := s.ns.clients.filter (· ≠ c) } }

/-- `Client.Join(roomName)` (lines 197-204): record the name in the
client's local mirror, get-or-create the room, add the client to it. -/
def clientJoin (s : Sock) (c : Nat) (r : String) : Sock :=
  let s1 := { s with clientRooms :=
                Function.update s.clientRooms c (setInsert r (s.clientRooms c)) }
  let p := nsRoom s1 r
  roomAddClient p.2 p.1 c

/-- `Client.Leave(roomName)` (lines 207-219): delete the name from the
client's mirror unconditionally; then look the room up (read-only — no
creation) and, only if it exists, remove the client from it. -/
def clientLeave (s : Sock) (c : Nat) (r : String) : Sock :=
  let s1 := { s with clientRooms :=
                Function.update s.clientRooms c ((s.clientRooms c).filter (· ≠ r)) }
  match s1.ns.roomMap.lookup r with
  | some ri => roomRemoveClient s1 ri c
  | none => s1

/-- The loop `for _, room := range rooms \x7b c.Leave(room) \x7d` of
`readPump`'s deferred teardown. -/
def leaveAll (s : Sock) (c : Nat) (l : List String) : Sock :=
  l.foldl (fun acc r => clientLeave acc c r) s

/-- The deferred teardown of `Client.readPump` (lines 238-254): remove the
client from the namespace, snapshot its mirror, then `Leave` every room in
the snapshot.  (The final `conn.Close()` has no membership effect.) -/
def clientTeardown (s : Sock) (c : Nat) : Sock :=
  let s1 := nsRemoveClient s c
  leaveAll s1 c (s1.clientRooms c)

/-! ## Emit fan-out (Namespace.Emit, Room.Emit, Client.Emit)

The heap of outbound queues is a function from client pointer to `SQueue`;
each emit iterates over the relevant member set and performs the
non-blocking `trySend` on each member's queue. -/

/-- The loop body shared by `Namespace.Emit` and `Room.Emit`: push `msg`
onto the queue of every client in `targets` (a Go map iteration visits
each key exactly once; the member sets are duplicate-free). -/
def pushAll (targets : List Nat) (msg : Message) (qs : Nat → SQueue) : Nat → SQueue :=
  targets.foldl (fun acc cid => Function.update acc cid (trySend (acc cid) msg)) qs

/-- `Namespace.Emit(event, data)` (sockx.go lines 99-116): build
`Message\x7bEvent: event, Data: data, Namespace: ns.name\x7d` (the `Room`
field is left at its zero value, hence omitted on the wire) and push it to
every client in the namespace's client set. -/
def namespaceEmit (nsName : String) (nsClients : List Nat)
    (event : String) (data : Json) (qs : Nat → SQueue) : Nat → SQueue :=
  pushAll nsClients ⟨event, data, nsName, ""⟩ qs

/-- `Room.Emit(event, data)` (sockx.go lines 162-180): build
`Message\x7bEvent: event, Data: data, Namespace: r.namespace.name,
Room: r.name\x7d` and push it to every client in the room's client set. -/
def roomEmit (nsName roomName : String) (roomClients : List Nat)
    (event : String) (data : Json) (qs : Nat → SQueue) : Nat → SQueue :=
  pushAll roomClients ⟨event, data, nsName, roomName⟩ qs

/-- `Client.Emit(event, data)` (sockx.go lines 222-234): build the
namespace-tagged message and push it only onto this client's own queue. -/
def clientEmit (nsName : String) (c : Nat)
    (event : String) (data : Json) (qs : Nat → SQueue) : Nat → SQueue :=
  Function.update qs c (trySend (qs c) ⟨event, data, nsName, ""⟩)

/-! ## Handler table and dispatch (Namespace.On / Namespace.handleEvent)

Handlers are opaque Go function values; their identity is modelled by a
natural number.  The table `events map[string]EventHandler` is a function
with pointwise update, the semantics of Go map assignment.  `handleEvent`
only reads the table; it is embedded as the optional invocation it
performs: `some (handler, client, msg.Data)` when a handler is registered
for `msg.Event`, `none` otherwise. -/

/-- `Namespace.On(event, handler)` (lines 92-96): register/overwrite,
last registration wins. -/
def nsOn (events : String → Option Nat) (event : String) (handler : Nat) :
    String → Option Nat :=
  fun e => if e = event then some handler else events e

/-- `Namespace.handleEvent(client, msg)` (lines 151-159): look up
`msg.Event`; if a handler exists invoke it synchronously with
`(client, msg.Data)`, otherwise do nothing.  The returned pair is the
table (unchanged — the function only reads it) and the invocation made. -/
def handleEvent (events : String → Option Nat) (client : Nat) (msg : Message) :
    (String → Option Nat) × Option (Nat × Nat × Json) :=
  match events msg.Event with
  | some handler => (events, some (handler, client, msg.Data))
  | none => (events, none)

/-! ## Wire codec (writePump / readPump, `encoding/json`)

`writePump` does `conn.WriteJSON(msg)` = `json.Marshal` of the `Message`
struct; `readPump` does `conn.ReadJSON(&msg)` = `json.Unmarshal` into a
fresh `Message`.  Marshalling emits `event` and `data` always, and
`namespace` / `room` only when non-empty (`omitempty`); unmarshalling
fills each field from the object, leaving the zero value (`""` / `null`)
when the key is absent. -/

/-- First value bound to key `k` in a JSON object's field list (Go's
`encoding/json` takes the last duplicate, but `Marshal` never emits
duplicates, so first = last on every encoder output). -/
def jsonGet (fields : List (String × Json)) (k : String) : Option Json :=
  fields.lookup k

/-- `json.Marshal` of a `Message` (struct tags
`event`, `data`, `namespace,omitempty`, `room,omitempty`). -/
def encodeMessage (m : Message) : Json :=
  Json.obj ([("event", Json.str m.Event), ("data", m.Data)]
    ++ (if m.Namespace = "" then [] else [("namespace", Json.str m.Namespace)])
    ++ (if m.Room = "" then [] else [("room", Json.str m.Room)]))

/-- Read a string-valued field, defaulting to Go's zero value `""` when
the key is absent (or not a string, which Unmarshal would reject — the
encoder only ever writes strings there). -/
def jsonGetStr (fields : List (String × Json)) (k : String) : String :=
  match jsonGet fields k with
  | some (Json.str s) => s
  | _ => ""

/-- `json.Unmarshal` of a wire object into a `Message`. -/
def decodeMessage (j : Json) : Message :=
  match j with
  | Json.obj fields =>
      { Event := jsonGetStr fields "event"
        Data := (jsonGet fields "data").getD Json.null
        Namespace := jsonGetStr fields "namespace"
        Room := jsonGetStr fields "room" }
  | _ => ⟨"", Json.null, "", ""⟩

/-! ## Reachable states

For the room-subset invariant claim: states reachable from a fresh
namespace by sequences of the public operations. -/

/-- The room-subset property: every room's client set is contained in the
owning namespace's client set. -/
def roomSubsetInv (s : Sock) : Prop :=
  ∀ p ∈ s.ns.roomMap, ∀ c ∈ s.rooms p.2, c ∈ s.ns.clients

/-- States reachable by arbitrary sequences of the operations the claim
lists: Join, Leave, addClient, removeClient and client teardown. -/
inductive Reach : Sock → Prop where
  | init : Reach sockInit
  | add {s : Sock} (c : Nat) : Reach s → Reach (nsAddClient s c)
  | remove {s : Sock} (c : Nat) : Reach s → Reach (nsRemoveClient s c)
  | join {s : Sock} (c : Nat) (r : String) : Reach s → Reach (clientJoin s c r)
  | leave {s : Sock} (c : Nat) (r : String) : Reach s → Reach (clientLeave s c r)
  | teardown {s : Sock} (c : Nat) : Reach s → Reach (clientTeardown s c)

/-- Reachability restricted to the call discipline the server actually
follows: `removeClient` occurs only as the first step of a client
teardown, and `Join` is invoked only by a client currently registered in
the namespace's client set (handlers, the only callers of `Join`, run
inside `readPump` while the client is registered). -/
inductive ReachSafe : Sock → Prop where
  | init : ReachSafe sockInit
  | add {s : Sock} (c : Nat) : ReachSafe s → ReachSafe (nsAddClient s c)
  | join {s : Sock} (c : Nat) (r : String) : ReachSafe s →
      c ∈ s.ns.clients → ReachSafe (clientJoin s c r)
  | leave {s : Sock} (c : Nat) (r : String) : ReachSafe s →
      ReachSafe (clientLeave s c r)
  | teardown {s : Sock} (c : Nat) : ReachSafe s → ReachSafe (clientTeardown s c)

/-- The inductive invariant carrying the room-subset property: room
pointers in the room map are below the allocation counter, room names and
room pointers are duplicate-free, each room's member set is contained in
the namespace's client set, and each room member's mirror records the
room's name. -/
def SockInv (s : Sock) : Prop :=
  (∀ p ∈ s.ns.roomMap, p.2 < s.ns.nextRoomId) ∧
  (s.ns.roomMap.map Prod.fst).Nodup ∧
  (s.ns.roomMap.map Prod.snd).Nodup ∧
  roomSubsetInv s ∧
  (∀ p ∈ s.ns.roomMap, ∀ c ∈ s.rooms p.2, p.1 ∈ s.clientRooms c)

/-! ## Association-list lemmas (Go map behaviour of the registries) -/

theorem lookup_append_of_none {α β : Type} [BEq α] {l₁ l₂ : List (α × β)} {k : α}
    (h : l₁.lookup k = none) : (l₁ ++ l₂).lookup k = l₂.lookup k := by
  induction l₁ with
  | nil => rfl
  | cons p t ih =>
      obtain ⟨a, b⟩ := p
      simp only [List.cons_append, List.lookup] at h ⊢
      cases hk : (k == a) with
      | true => rw [hk] at h; exact Option.noConfusion h
      | false => rw [hk] at h; exact ih h

theorem lookup_none_not_key {α β : Type} [BEq α] [LawfulBEq α] {l : List (α × β)} {k : α}
    (h : l.lookup k = none) : ∀ p ∈ l, p.1 ≠ k := by
  induction l with
  | nil => intro p hp; cases hp
  | cons q t ih =>
      obtain ⟨a, b⟩ := q
      intro p hp
      simp only [List.lookup] at h
      cases hk : (k == a) with
      | true => rw [hk] at h; exact Option.noConfusion h
      | false =>
          rw [hk] at h
          rcases List.mem_cons.mp hp with h1 | h2
          · subst h1
            intro he
            exact absurd he.symm (by simpa using hk)
          · exact ih h p h2

theorem lookup_mem {α β : Type} [BEq α] [LawfulBEq α] {l : List (α × β)} {k : α} {v : β}
    (h : l.lookup k = some v) : (k, v) ∈ l := by
  induction l with
  | nil => cases h
  | cons q t ih =>
      obtain ⟨a, b⟩ := q
      simp only [List.lookup] at h
      cases hk : (k == a) with
      | true =>
          rw [hk] at h
          have ha : k = a := by simpa using hk
          have hb : b = v := Option.some.inj h
          subst ha; subst hb; exact List.mem_cons_self _ _
      | false => rw [hk] at h; exact List.mem_cons_of_mem _ (ih h)

theorem keyNodup_lookup {α β : Type} [BEq α] [LawfulBEq α] {l : List (α × β)}
    (hnd : (l.map Prod.fst).Nodup) {k : α} {v : β} (h : (k, v) ∈ l) :
    l.lookup k = some v := by
  induction l with
  | nil => cases h
  | cons q t ih =>
      obtain ⟨a, b⟩ := q
      simp only [List.map_cons, List.nodup_cons] at hnd
      simp only [List.lookup]
      cases hk : (k == a) with
      | true =>
          have ha : k = a := by simpa using hk
          subst ha
          show some b = some v
          rcases List.mem_cons.mp h with h1 | h2
          · injection h1 with _ hb
            rw [hb]
          · exact absurd (List.mem_map.mpr ⟨(k, v), h2, rfl⟩) hnd.1
      | false =>
          have hne : k ≠ a := by simpa using hk
          show List.lookup k t = some v
          rcases List.mem_cons.mp h with h1 | h2
          · exact absurd (congrArg Prod.fst h1) hne
          · exact ih hnd.2 h2

theorem idNodup_eq {α β : Type} {l : List (α × β)}
    (hnd : (l.map Prod.snd).Nodup) {p q : α × β} (hp : p ∈ l) (hq : q ∈ l)
    (h : p.2 = q.2) : p = q :=
  List.inj_on_of_nodup_map hnd hp hq h

/-! ## Claim theorems -/

/-- C1: the claim says every accepted connection gets a fresh, unique
`ID`; the code does the opposite.  `generateID` is a constant —
`randomString` fills position `i` with `chars[i % len(chars)]`, so every
accepted client receives the very same ID string `"abcdefghijklmnop"`,
contradicting the code's own comment "generates a unique client ID". -/
theorem generateID_constant :
    generateID = "abcdefghijklmnop" ∧
      ∀ i j : Nat, acceptClientID i = acceptClientID j :=
  ⟨by decide, fun _ _ => rfl⟩

/-- C6: get-or-create uniqueness for `Server.Namespace` and
`Namespace.Room`: a repeated call with the same name returns the same
instance and leaves the state unchanged, and a call with an absent name
inserts exactly one new instance. -/
theorem getOrCreate_unique (reg : Registry) (n : String) (s : Sock) (r : String) :
    ((serverNamespace (serverNamespace reg n).2 n).1 = (serverNamespace reg n).1 ∧
      (serverNamespace (serverNamespace reg n).2 n).2 = (serverNamespace reg n).2) ∧
    (reg.entries.lookup n = none →
      (serverNamespace reg n).2.entries = reg.entries ++ [(n, reg.nextId)]) ∧
    ((nsRoom (nsRoom s r).2 r).1 = (nsRoom s r).1 ∧
      (nsRoom (nsRoom s r).2 r).2 = (nsRoom s r).2) ∧
    (s.ns.roomMap.lookup r = none →
      (nsRoom s r).2.ns.roomMap = s.ns.roomMap ++ [(r, s.ns.nextRoomId)]) := by
  refine ⟨?_, ?_, ?_, ?_⟩
  · cases h : reg.entries.lookup n with
    | some ns => simp [serverNamespace, h]
    | none =>
        have h2 : ((⟨reg.entries ++ [(n, reg.nextId)], reg.nextId + 1⟩ :
            Registry).entries).lookup n = some reg.nextId := by
          rw [lookup_append_of_none h]
          simp [List.lookup]
        simp [serverNamespace, h, h2]
  · intro h; simp [serverNamespace, h]
  · cases h : s.ns.roomMap.lookup r with
    | some ri => simp [nsRoom, h]
    | none =>
        have h2 : ((nsRoom s r).2.ns.roomMap).lookup r = some s.ns.nextRoomId := by
          simp only [nsRoom, h]
          rw [lookup_append_of_none h]
          simp [List.lookup]
        simp only [nsRoom, h] at h2 ⊢
        simp [h2]
  · intro h; simp [nsRoom, h]

/-- C6 witness: on an empty server and a fresh namespace state, looking
the namespace `/` (resp. room `r`) up twice yields the same instance, and
the first call inserted exactly one entry. -/
theorem getOrCreate_unique_witness :
    ((serverNamespace (serverNamespace ⟨[], 0⟩ "/").2 "/").1 =
        (serverNamespace ⟨[], 0⟩ "/").1) ∧
    ((serverNamespace ⟨[], 0⟩ "/").2.entries = [("/", 0)]) ∧
    ((nsRoom sockInit "r").2.ns.roomMap = [("r", 0)]) := by
  have h := getOrCreate_unique ⟨[], 0⟩ "/" sockInit "r"
  refine ⟨h.1.1, ?_, ?_⟩
  · have := h.2.1 rfl
    simpa using this
  · have := h.2.2.2 rfl
    simpa [sockInit] using this

/-- C4: dispatch routing.  After `On` registers `h` for event `e`, a
message with event `e` invokes exactly `h`, synchronously, with
`(client, msg.Data)`; a message whose event has no registered handler
invokes nothing; in both cases `handleEvent` leaves the handler table
unchanged. -/
theorem handleEvent_routes (events : String → Option Nat) (e : String)
    (h c : Nat) (m : Message) :
    (m.Event = e →
      handleEvent (nsOn events e h) c m = (nsOn events e h, some (h, c, m.Data))) ∧
    (events m.Event = none → handleEvent events c m = (events, none)) ∧
    (handleEvent events c m).1 = events := by
  refine ⟨?_, ?_, ?_⟩
  · intro he
    simp [handleEvent, nsOn, he]
  · intro hn
    simp [handleEvent, hn]
  · cases hv : events m.Event <;> simp [handleEvent, hv]

/-- C4 witness: a handler registered for `ping` fires on a `ping` message
with the message's data; an unregistered `pong` event is a silent no-op. -/
theorem handleEvent_routes_witness :
    (handleEvent (nsOn (fun _ => none) "ping" 7) 1 ⟨"ping", Json.null, "", ""⟩ =
      (nsOn (fun _ => none) "ping" 7, some (7, 1, Json.null))) ∧
    (handleEvent (fun _ => none) 1 ⟨"pong", Json.null, "", ""⟩ =
      (fun _ => none, none)) :=
  ⟨(handleEvent_routes (fun _ => none) "ping" 7 1 ⟨"ping", Json.null, "", ""⟩).1 rfl,
   (handleEvent_routes (fun _ => none) "ping" 7 1 ⟨"pong", Json.null, "", ""⟩).2.1 rfl⟩

/-- C9: round-trip.  Marshalling a `Message` as the outbound pump does and
unmarshalling the result as the inbound pump does yields a message equal
to the original in all four fields (`omitempty` drops the empty
namespace/room tags, and decoding restores them as the zero value). -/
theorem message_roundtrip (m : Message) : decodeMessage (encodeMessage m) = m := by
  obtain ⟨e, d, n, r⟩ := m
  by_cases hn : n = "" <;> by_cases hr : r = "" <;>
    simp [encodeMessage, decodeMessage, jsonGetStr, jsonGet, List.lookup, hn, hr]

/-! ## Fan-out lemmas -/

theorem pushAll_not_mem (targets : List Nat) (msg : Message) (qs : Nat → SQueue)
    {cid : Nat} (h : cid ∉ targets) : pushAll targets msg qs cid = qs cid := by
  induction targets generalizing qs with
  | nil => rfl
  | cons t ts ih =>
      have hne : cid ≠ t := fun he => h (he ▸ List.mem_cons_self t ts)
      have h2 : cid ∉ ts := fun hm => h (List.mem_cons_of_mem t hm)
      show pushAll ts msg (Function.update qs t (trySend (qs t) msg)) cid = qs cid
      rw [ih _ h2, Function.update_noteq hne]

theorem pushAll_mem (targets : List Nat) (msg : Message) (qs : Nat → SQueue)
    {cid : Nat} (hnd : targets.Nodup) (h : cid ∈ targets) :
    pushAll targets msg qs cid = trySend (qs cid) msg := by
  induction targets generalizing qs with
  | nil => cases h
  | cons t ts ih =>
      rw [List.nodup_cons] at hnd
      show pushAll ts msg (Function.update qs t (trySend (qs t) msg)) cid = _
      rcases List.mem_cons.mp h with h1 | h2
      · subst h1
        rw [pushAll_not_mem _ _ _ hnd.1, Function.update_same]
      · have hne : cid ≠ t := fun he => hnd.1 (he ▸ h2)
        rw [ih _ hnd.2 h2, Function.update_noteq hne]

/-- C2: emit scoping and tagging.  `Room.Emit` performs exactly one push,
of the message `⟨event, data, namespace-name, room-name⟩`, on the queue of
every client in the room's member set and leaves every other queue
untouched; `Namespace.Emit` does the analogous push of
`⟨event, data, namespace-name, ""⟩` (room tag absent) to every member of
the namespace regardless of room membership; `Client.Emit` pushes only to
the one client's queue. -/
theorem emit_scoping (nsName roomName : String) (nsClients roomClients : List Nat)
    (event : String) (data : Json) (qs : Nat → SQueue) (cid target : Nat) :
    (roomClients.Nodup →
      (cid ∈ roomClients →
        roomEmit nsName roomName roomClients event data qs cid =
          trySend (qs cid) ⟨event, data, nsName, roomName⟩) ∧
      (cid ∉ roomClients →
        roomEmit nsName roomName roomClients event data qs cid = qs cid)) ∧
    (nsClients.Nodup →
      (cid ∈ nsClients →
        namespaceEmit nsName nsClients event data qs cid =
          trySend (qs cid) ⟨event, data, nsName, ""⟩) ∧
      (cid ∉ nsClients →
        namespaceEmit nsName nsClients event data qs cid = qs cid)) ∧
    (clientEmit nsName target event data qs target =
        trySend (qs target) ⟨event, data, nsName, ""⟩) ∧
    (cid ≠ target → clientEmit nsName target event data qs cid = qs cid) := by
  refine ⟨fun hnd => ⟨?_, ?_⟩, fun hnd => ⟨?_, ?_⟩, ?_, ?_⟩
  · exact fun h => pushAll_mem _ _ _ hnd h
  · exact fun h => pushAll_not_mem _ _ _ h
  · exact fun h => pushAll_mem _ _ _ hnd h
  · exact fun h => pushAll_not_mem _ _ _ h
  · exact Function.update_same _ _ _
  · exact fun h => Function.update_noteq h _ _

/-- C2 witness: in a two-client world where only client `0` is in the
room, a room emit reaches exactly client `0` with the fully tagged
message, a namespace emit reaches both, and a client emit to `1` reaches
only `1`.  Queues start empty with capacity 2. -/
theorem emit_scoping_witness :
    (roomEmit "/" "r1" [0] "x" (Json.num 42) (fun _ => ⟨[], 2⟩) 0 =
      trySend ⟨[], 2⟩ ⟨"x", Json.num 42, "/", "r1"⟩) ∧
    (roomEmit "/" "r1" [0] "x" (Json.num 42) (fun _ => ⟨[], 2⟩) 1 = ⟨[], 2⟩) ∧
    (namespaceEmit "/" [0, 1] "x" (Json.num 42) (fun _ => ⟨[], 2⟩) 1 =
      trySend ⟨[], 2⟩ ⟨"x", Json.num 42, "/", ""⟩) ∧
    (clientEmit "/" 1 "x" (Json.num 42) (fun _ => ⟨[], 2⟩) 0 = ⟨[], 2⟩) := by
  have h0 := emit_scoping "/" "r1" [0, 1] [0] "x" (Json.num 42) (fun _ => ⟨[], 2⟩) 0 1
  have h1 := emit_scoping "/" "r1" [0, 1] [0] "x" (Json.num 42) (fun _ => ⟨[], 2⟩) 1 1
  exact ⟨(h0.1 (by decide)).1 (by decide),
         (h1.1 (by decide)).2 (by decide),
         (h1.2.1 (by decide)).1 (by decide),
         h0.2.2.2 (by decide)⟩

/-- C3: drop-on-full is uniform and non-blocking.  A push onto a full
queue leaves the queue unchanged (and, `trySend` being a total function
returning no error value, signals nothing to the caller); a push onto a
queue with free capacity appends exactly the message; and the same holds
through each of `Client.Emit`, `Room.Emit` and `Namespace.Emit`. -/
theorem emit_drop_on_full (q : SQueue) (m : Message)
    (nsName roomName : String) (nsClients roomClients : List Nat)
    (event : String) (data : Json) (qs : Nat → SQueue) (cid : Nat) :
    (¬ q.buf.length < q.cap → trySend q m = q) ∧
    (q.buf.length < q.cap → trySend q m = ⟨q.buf ++ [m], q.cap⟩) ∧
    (¬ (qs cid).buf.length < (qs cid).cap →
      (cid ∈ roomClients → roomClients.Nodup →
        roomEmit nsName roomName roomClients event data qs cid = qs cid) ∧
      (cid ∈ nsClients → nsClients.Nodup →
        namespaceEmit nsName nsClients event data qs cid = qs cid) ∧
      clientEmit nsName cid event data qs cid = qs cid) := by
  refine ⟨fun h => by simp [trySend, h], fun h => by simp [trySend, h], fun hfull => ⟨?_, ?_, ?_⟩⟩
  · intro hm hnd
    simp only [roomEmit]
    rw [pushAll_mem _ _ _ hnd hm]
    simp [trySend, hfull]
  · intro hm hnd
    simp only [namespaceEmit]
    rw [pushAll_mem _ _ _ hnd hm]
    simp [trySend, hfull]
  · rw [clientEmit, Function.update_same]
    simp [trySend, hfull]

/-- C3 witness: with client `0`'s queue full (capacity 1, one buffered
message), a room emit, a namespace emit and a direct client emit all
leave the queue exactly as it was; a push on a free queue appends. -/
theorem emit_drop_on_full_witness :
    (trySend ⟨[⟨"a", Json.null, "", ""⟩], 1⟩ ⟨"b", Json.null, "", ""⟩ =
      ⟨[⟨"a", Json.null, "", ""⟩], 1⟩) ∧
    (trySend ⟨[], 1⟩ ⟨"b", Json.null, "", ""⟩ = ⟨[⟨"b", Json.null, "", ""⟩], 1⟩) ∧
    (roomEmit "/" "r1" [0] "b" Json.null
        (fun _ => ⟨[⟨"a", Json.null, "", ""⟩], 1⟩) 0 = ⟨[⟨"a", Json.null, "", ""⟩], 1⟩) := by
  have h := emit_drop_on_full ⟨[⟨"a", Json.null, "", ""⟩], 1⟩ ⟨"b", Json.null, "", ""⟩
    "/" "r1" [0] [0] "b" Json.null (fun _ => ⟨[⟨"a", Json.null, "", ""⟩], 1⟩) 0
  exact ⟨h.1 (by decide),
         (emit_drop_on_full ⟨[], 1⟩ ⟨"b", Json.null, "", ""⟩
            "/" "r1" [0] [0] "b" Json.null (fun _ => ⟨[], 1⟩) 0).2.1 (by decide),
         (h.2.2 (by decide)).1 (by decide) (by decide)⟩

/-! ## Set-insert lemmas (Go map `m[k] = true`) -/

theorem setInsert_self_mem {α : Type} [DecidableEq α] (x : α) (l : List α) :
    x ∈ setInsert x l := by
  by_cases h : x ∈ l <;> simp [setInsert, h]

theorem setInsert_eq_of_mem {α : Type} [DecidableEq α] {x : α} {l : List α}
    (h : x ∈ l) : setInsert x l = l := if_pos h

theorem setInsert_idem {α : Type} [DecidableEq α] (x : α) (l : List α) :
    setInsert x (setInsert x l) = setInsert x l :=
  setInsert_eq_of_mem (setInsert_self_mem x l)

/-- C7: Join/Leave idempotence.  A second `Join` of the same room changes
nothing at all (room member set, room map, and local mirror included),
and a `Leave` of a room the client has not joined (its name is not in the
mirror and the client is not in the room's member set, if such a room
even exists) is a complete no-op on the state. -/
theorem join_leave_idempotent (s : Sock) (c : Nat) (r : String) :
    clientJoin (clientJoin s c r) c r = clientJoin s c r ∧
    (r ∉ s.clientRooms c →
      (∀ ri, s.ns.roomMap.lookup r = some ri → c ∉ s.rooms ri) →
      clientLeave s c r = s) := by
  constructor
  · cases h : s.ns.roomMap.lookup r with
    | some ri =>
        have e1 : clientJoin s c r =
            { s with
                clientRooms :=
                  Function.update s.clientRooms c (setInsert r (s.clientRooms c))
                rooms := Function.update s.rooms ri (setInsert c (s.rooms ri)) } := by
          simp [clientJoin, nsRoom, roomAddClient, h]
        rw [e1]
        simp [clientJoin, nsRoom, roomAddClient, h, Function.update_same,
          Function.update_idem, setInsert_idem, Function.update_eq_self]
    | none =>
        have e1 : clientJoin s c r =
            { s with
                ns := { s.ns with
                          roomMap := s.ns.roomMap ++ [(r, s.ns.nextRoomId)]
                          nextRoomId := s.ns.nextRoomId + 1 }
                clientRooms :=
                  Function.update s.clientRooms c (setInsert r (s.clientRooms c))
                rooms := Function.update s.rooms s.ns.nextRoomId [c] } := by
          simp [clientJoin, nsRoom, roomAddClient, h, Function.update_idem,
            Function.update_same]
          funext x
          by_cases hx : x = s.ns.nextRoomId <;>
            simp [hx, Function.update_same, Function.update_noteq, setInsert]
        have h2 : (clientJoin s c r).ns.roomMap.lookup r = some s.ns.nextRoomId := by
          rw [e1]
          show (s.ns.roomMap ++ [(r, s.ns.nextRoomId)]).lookup r = _
          rw [lookup_append_of_none h]
          simp [List.lookup]
        rw [e1] at h2 ⊢
        simp [clientJoin, nsRoom, roomAddClient, h2, Function.update_same,
          Function.update_idem, setInsert_idem, Function.update_eq_self,
          setInsert_eq_of_mem, setInsert_self_mem]
  · intro hmem hroom
    have hfix : List.filter (fun x => !decide (x = r)) (s.clientRooms c) =
        s.clientRooms c := by
      rw [List.filter_eq_self]
      intro a ha
      simp only [Bool.not_eq_true', decide_eq_false_iff_not]
      exact fun he => hmem (he ▸ ha)
    cases h : s.ns.roomMap.lookup r with
    | none => simp [clientLeave, h, hfix, Function.update_eq_self]
    | some ri =>
        have hfix2 : List.filter (fun x => !decide (x = c)) (s.rooms ri) =
            s.rooms ri := by
          rw [List.filter_eq_self]
          intro a ha
          simp only [Bool.not_eq_true', decide_eq_false_iff_not]
          exact fun he => hroom ri h (he ▸ ha)
        simp [clientLeave, roomRemoveClient, h, hfix, hfix2, Function.update_eq_self]

/-- C7 witness: joining room `r` twice from a fresh state equals joining
it once, and leaving it from the fresh state (where nothing has joined)
changes nothing. -/
theorem join_leave_idempotent_witness :
    clientJoin (clientJoin sockInit 0 "r") 0 "r" = clientJoin sockInit 0 "r" ∧
    clientLeave sockInit 0 "r" = sockInit :=
  ⟨(join_leave_idempotent sockInit 0 "r").1,
   (join_leave_idempotent sockInit 0 "r").2 (by decide)
     (fun _ h => Option.noConfusion h)⟩

/-- C10: `Leave` deletes the room name from the client's mirror
unconditionally — even when no room of that name exists — and never
creates a room: the namespace struct (client set, room map, handler
table, allocation counter) is untouched, other clients' mirrors are
untouched, and the room heap is untouched when the room does not exist
(and changed only by the membership removal in that one room when it
does). -/
theorem leave_frame (s : Sock) (c : Nat) (r : String) :
    (r ∉ (clientLeave s c r).clientRooms c) ∧
    ((clientLeave s c r).clientRooms c = (s.clientRooms c).filter (· ≠ r)) ∧
    (∀ c', c' ≠ c → (clientLeave s c r).clientRooms c' = s.clientRooms c') ∧
    ((clientLeave s c r).ns = s.ns) ∧
    (s.ns.roomMap.lookup r = none → (clientLeave s c r).rooms = s.rooms) ∧
    (∀ ri, s.ns.roomMap.lookup r = some ri →
      (clientLeave s c r).rooms =
        Function.update s.rooms ri ((s.rooms ri).filter (· ≠ c))) := by
  refine ⟨?_, ?_, ?_, ?_, ?_, ?_⟩
  · cases h : s.ns.roomMap.lookup r with
    | none =>
        simp [clientLeave, h, Function.update_same, List.mem_filter]
    | some ri =>
        simp [clientLeave, roomRemoveClient, h, Function.update_same, List.mem_filter]
  · cases h : s.ns.roomMap.lookup r with
    | none => simp [clientLeave, h, Function.update_same]
    | some ri => simp [clientLeave, roomRemoveClient, h, Function.update_same]
  · intro c' hc
    cases h : s.ns.roomMap.lookup r with
    | none => simp [clientLeave, h, Function.update_noteq hc]
    | some ri => simp [clientLeave, roomRemoveClient, h, Function.update_noteq hc]
  · cases h : s.ns.roomMap.lookup r with
    | none => simp [clientLeave, h]
    | some ri => simp [clientLeave, roomRemoveClient, h]
  · intro h
    simp [clientLeave, h]
  · intro ri h
    simp [clientLeave, roomRemoveClient, h]

/-- C10 witness: with a single client `0` having joined room `r`, leaving
the nonexistent room `q` clears only the mirror entry (there is none) and
touches neither the namespace nor the room heap; leaving `r` removes the
mirror entry and removes `0` from room `r`'s member set only. -/
theorem leave_frame_witness :
    ("q" ∉ (clientLeave (clientJoin sockInit 0 "r") 0 "q").clientRooms 0) ∧
    ((clientLeave (clientJoin sockInit 0 "r") 0 "q").ns =
      (clientJoin sockInit 0 "r").ns) ∧
    ((clientLeave (clientJoin sockInit 0 "r") 0 "q").rooms =
      (clientJoin sockInit 0 "r").rooms) ∧
    ((clientLeave (clientJoin sockInit 0 "r") 0 "r").rooms =
      Function.update (clientJoin sockInit 0 "r").rooms 0
        (((clientJoin sockInit 0 "r").rooms 0).filter (· ≠ 0))) :=
  ⟨(leave_frame (clientJoin sockInit 0 "r") 0 "q").1,
   (leave_frame (clientJoin sockInit 0 "r") 0 "q").2.2.2.1,
   (leave_frame (clientJoin sockInit 0 "r") 0 "q").2.2.2.2.1 (by decide),
   (leave_frame (clientJoin sockInit 0 "r") 0 "r").2.2.2.2.2 0 (by decide)⟩

/-! ## Structural lemmas about Leave and the teardown loop -/

theorem clientLeave_ns (s : Sock) (c : Nat) (r : String) :
    (clientLeave s c r).ns = s.ns := by
  cases h : s.ns.roomMap.lookup r with
  | none => simp [clientLeave, h]
  | some ri => simp [clientLeave, roomRemoveClient, h]

theorem clientLeave_rooms_mem {s : Sock} {c : Nat} {r : String} {ri x : Nat}
    (h : x ∈ (clientLeave s c r).rooms ri) : x ∈ s.rooms ri := by
  cases hl : s.ns.roomMap.lookup r with
  | none => simpa [clientLeave, hl] using h
  | some rj =>
      simp only [clientLeave, roomRemoveClient, hl] at h
      by_cases he : ri = rj
      · subst he
        rw [Function.update_same] at h
        exact (List.mem_filter.mp h).1
      · rwa [Function.update_noteq he] at h

theorem clientLeave_removes {s : Sock} {c : Nat} {r : String} {ri : Nat}
    (h : s.ns.roomMap.lookup r = some ri) : c ∉ (clientLeave s c r).rooms ri := by
  simp [clientLeave, roomRemoveClient, h, Function.update_same, List.mem_filter]

theorem clientLeave_mirror_other {s : Sock} {c c' : Nat} {r : String}
    (hc : c' ≠ c) : (clientLeave s c r).clientRooms c' = s.clientRooms c' := by
  cases h : s.ns.roomMap.lookup r with
  | none => simp [clientLeave, h, Function.update_noteq hc]
  | some ri => simp [clientLeave, roomRemoveClient, h, Function.update_noteq hc]

theorem clientLeave_mirror_self (s : Sock) (c : Nat) (r : String) :
    (clientLeave s c r).clientRooms c =
      (s.clientRooms c).filter (fun x => !decide (x = r)) := by
  cases h : s.ns.roomMap.lookup r with
  | none => simp [clientLeave, h, Function.update_same]
  | some ri => simp [clientLeave, roomRemoveClient, h, Function.update_same]

theorem leaveAll_cons (s : Sock) (c : Nat) (r : String) (l : List String) :
    leaveAll s c (r :: l) = leaveAll (clientLeave s c r) c l := rfl

theorem leaveAll_ns (l : List String) (s : Sock) (c : Nat) :
    (leaveAll s c l).ns = s.ns := by
  induction l generalizing s with
  | nil => rfl
  | cons r t ih => rw [leaveAll_cons, ih, clientLeave_ns]

theorem leaveAll_rooms_mem (l : List String) {s : Sock} {c : Nat} {ri x : Nat}
    (h : x ∈ (leaveAll s c l).rooms ri) : x ∈ s.rooms ri := by
  induction l generalizing s with
  | nil => exact h
  | cons r t ih => exact clientLeave_rooms_mem (ih (leaveAll_cons .. ▸ h))

theorem leaveAll_removes (l : List String) {s : Sock} {c : Nat} {r : String}
    {ri : Nat} (hmem : r ∈ l) (h : s.ns.roomMap.lookup r = some ri) :
    c ∉ (leaveAll s c l).rooms ri := by
  induction l generalizing s with
  | nil => cases hmem
  | cons r0 t ih =>
      rw [leaveAll_cons]
      rcases List.mem_cons.mp hmem with h1 | h2
      · subst h1
        intro hc
        exact clientLeave_removes h (leaveAll_rooms_mem t hc)
      · exact ih h2 ((clientLeave_ns s c r0).symm ▸ h)

theorem leaveAll_mirror_sub (l : List String) {s : Sock} {c : Nat} {x : String}
    (h : x ∈ (leaveAll s c l).clientRooms c) :
    x ∈ s.clientRooms c ∧ x ∉ l := by
  induction l generalizing s with
  | nil => exact ⟨h, List.not_mem_nil x⟩
  | cons r t ih =>
      rw [leaveAll_cons] at h
      obtain ⟨h1, h2⟩ := ih h
      rw [clientLeave_mirror_self] at h1
      obtain ⟨h3, h4⟩ := List.mem_filter.mp h1
      refine ⟨h3, ?_⟩
      intro hm
      rcases List.mem_cons.mp hm with h5 | h5
      · simp [h5] at h4
      · exact h2 h5

/-- C5: teardown cascade.  After `readPump`'s deferred teardown runs for
client `c`, the client is absent from its namespace's client set, absent
from the member set of every room it had joined (every room name in its
mirror that denotes an existing room), and its local mirror is empty. -/
theorem teardown_cascade (s : Sock) (c : Nat) :
    c ∉ (clientTeardown s c).ns.clients ∧
    (clientTeardown s c).clientRooms c = [] ∧
    (∀ r ri, r ∈ s.clientRooms c → s.ns.roomMap.lookup r = some ri →
      c ∉ (clientTeardown s c).rooms ri) := by
  refine ⟨?_, ?_, ?_⟩
  · show c ∉ (leaveAll (nsRemoveClient s c) c _).ns.clients
    rw [leaveAll_ns]
    simp [nsRemoveClient, List.mem_filter]
  · rw [List.eq_nil_iff_forall_not_mem]
    intro x hx
    obtain ⟨h1, h2⟩ := leaveAll_mirror_sub _ hx
    exact h2 h1
  · intro r ri hr hlook
    exact leaveAll_removes _ hr hlook

/-- C5 witness: client `0` joins room `r` after registering in the
namespace; after its teardown it is in neither the namespace's client set
nor room `r`'s member set, and its mirror is empty. -/
theorem teardown_cascade_witness :
    0 ∉ (clientTeardown (clientJoin (nsAddClient sockInit 0) 0 "r") 0).ns.clients ∧
    (clientTeardown (clientJoin (nsAddClient sockInit 0) 0 "r") 0).clientRooms 0 = [] ∧
    0 ∉ (clientTeardown (clientJoin (nsAddClient sockInit 0) 0 "r") 0).rooms 0 :=
  ⟨(teardown_cascade (clientJoin (nsAddClient sockInit 0) 0 "r") 0).1,
   (teardown_cascade (clientJoin (nsAddClient sockInit 0) 0 "r") 0).2.1,
   (teardown_cascade (clientJoin (nsAddClient sockInit 0) 0 "r") 0).2.2 "r" 0
     (by decide) (by decide)⟩

/-! ## Invariant preservation -/

theorem mem_setInsert_of_mem {α : Type} [DecidableEq α] {a x : α} {l : List α}
    (h : a ∈ l) : a ∈ setInsert x l := by
  by_cases hx : x ∈ l <;> simp [setInsert, hx, h]

theorem mem_setInsert_iff {α : Type} [DecidableEq α] {a x : α} {l : List α} :
    a ∈ setInsert x l ↔ a ∈ l ∨ a = x := by
  by_cases hx : x ∈ l
  · rw [setInsert, if_pos hx]
    exact ⟨Or.inl, fun h => h.elim id (fun he => he ▸ hx)⟩
  · rw [setInsert, if_neg hx]
    simp [List.mem_append]

theorem leaveAll_mirror_other (l : List String) {s : Sock} {c c' : Nat}
    (hc : c' ≠ c) : (leaveAll s c l).clientRooms c' = s.clientRooms c' := by
  induction l generalizing s with
  | nil => rfl
  | cons r t ih => rw [leaveAll_cons, ih, clientLeave_mirror_other hc]

theorem clientJoin_char_some {s : Sock} {c : Nat} {r : String} {ri : Nat}
    (h : s.ns.roomMap.lookup r = some ri) :
    clientJoin s c r =
      { s with
          clientRooms :=
            Function.update s.clientRooms c (setInsert r (s.clientRooms c))
          rooms := Function.update s.rooms ri (setInsert c (s.rooms ri)) } := by
  simp [clientJoin, nsRoom, roomAddClient, h]

theorem clientJoin_char_none {s : Sock} {c : Nat} {r : String}
    (h : s.ns.roomMap.lookup r = none) :
    clientJoin s c r =
      { s with
          ns := { s.ns with
                    roomMap := s.ns.roomMap ++ [(r, s.ns.nextRoomId)]
                    nextRoomId := s.ns.nextRoomId + 1 }
          clientRooms :=
            Function.update s.clientRooms c (setInsert r (s.clientRooms c))
          rooms := Function.update s.rooms s.ns.nextRoomId [c] } := by
  simp [clientJoin, nsRoom, roomAddClient, h, Function.update_idem,
    Function.update_same]
  funext x
  by_cases hx : x = s.ns.nextRoomId <;>
    simp [hx, Function.update_same, Function.update_noteq, setInsert]

theorem sockInv_init : SockInv sockInit := by
  refine ⟨?_, ?_, ?_, ?_, ?_⟩ <;> simp [sockInit, roomSubsetInv]

theorem sockInv_add {s : Sock} {c : Nat} (h : SockInv s) :
    SockInv (nsAddClient s c) := by
  obtain ⟨h1, h2, h3, h4, h5⟩ := h
  exact ⟨h1, h2, h3, fun p hp x hx => mem_setInsert_of_mem (h4 p hp x hx), h5⟩

theorem clientJoin_ns_some {s : Sock} {c : Nat} {r : String} {ri : Nat}
    (h : s.ns.roomMap.lookup r = some ri) : (clientJoin s c r).ns = s.ns := by
  rw [clientJoin_char_some h]

theorem clientJoin_rooms_some {s : Sock} {c : Nat} {r : String} {ri : Nat}
    (h : s.ns.roomMap.lookup r = some ri) :
    (clientJoin s c r).rooms = Function.update s.rooms ri (setInsert c (s.rooms ri)) := by
  rw [clientJoin_char_some h]

theorem clientJoin_ns_none {s : Sock} {c : Nat} {r : String}
    (h : s.ns.roomMap.lookup r = none) :
    (clientJoin s c r).ns =
      { s.ns with
          roomMap := s.ns.roomMap ++ [(r, s.ns.nextRoomId)]
          nextRoomId := s.ns.nextRoomId + 1 } := by
  rw [clientJoin_char_none h]

theorem clientJoin_rooms_none {s : Sock} {c : Nat} {r : String}
    (h : s.ns.roomMap.lookup r = none) :
    (clientJoin s c r).rooms = Function.update s.rooms s.ns.nextRoomId [c] := by
  rw [clientJoin_char_none h]

theorem clientJoin_clientRooms (s : Sock) (c : Nat) (r : String) :
    (clientJoin s c r).clientRooms =
      Function.update s.clientRooms c (setInsert r (s.clientRooms c)) := by
  cases h : s.ns.roomMap.lookup r with
  | some ri => rw [clientJoin_char_some h]
  | none => rw [clientJoin_char_none h]

theorem sockInv_leave {s : Sock} {c : Nat} {r : String} (h : SockInv s) :
    SockInv (clientLeave s c r) := by
  obtain ⟨h1, h2, h3, h4, h5⟩ := h
  have hns := clientLeave_ns s c r
  refine ⟨?_, ?_, ?_, ?_, ?_⟩
  · rw [hns]; exact h1
  · rw [hns]; exact h2
  · rw [hns]; exact h3
  · intro p hp x hx
    rw [hns] at hp ⊢
    exact h4 p hp x (clientLeave_rooms_mem hx)
  · intro p hp x hx
    rw [hns] at hp
    obtain ⟨pk, pv⟩ := p
    by_cases hxc : x = c
    · subst hxc
      rw [clientLeave_mirror_self, List.mem_filter]
      refine ⟨h5 (pk, pv) hp x (clientLeave_rooms_mem hx), ?_⟩
      simp only [Bool.not_eq_true', decide_eq_false_iff_not]
      intro he
      cases hl : s.ns.roomMap.lookup r with
      | none => exact lookup_none_not_key hl (pk, pv) hp he
      | some ri =>
          have hpl : s.ns.roomMap.lookup pk = some pv := keyNodup_lookup h2 hp
          rw [he, hl] at hpl
          have hri : pv = ri := (Option.some.inj hpl).symm
          rw [hri] at hx
          exact clientLeave_removes hl hx
    · rw [clientLeave_mirror_other hxc]
      exact h5 (pk, pv) hp x (clientLeave_rooms_mem hx)

theorem sockInv_join {s : Sock} {c : Nat} {r : String} (h : SockInv s)
    (hc : c ∈ s.ns.clients) : SockInv (clientJoin s c r) := by
  obtain ⟨h1, h2, h3, h4, h5⟩ := h
  have hcr := clientJoin_clientRooms s c r
  cases hl : s.ns.roomMap.lookup r with
  | some ri =>
      have hns := clientJoin_ns_some (c := c) hl
      have hrooms := clientJoin_rooms_some (c := c) hl
      refine ⟨?_, ?_, ?_, ?_, ?_⟩
      · rw [hns]; exact h1
      · rw [hns]; exact h2
      · rw [hns]; exact h3
      · intro p hp x hx
        rw [hns] at hp ⊢
        rw [hrooms] at hx
        by_cases hpri : p.2 = ri
        · rw [hpri, Function.update_same] at hx
          rcases mem_setInsert_iff.mp hx with hx1 | hx2
          · exact h4 p hp x (by rw [hpri]; exact hx1)
          · rw [hx2]; exact hc
        · rw [Function.update_noteq hpri] at hx
          exact h4 p hp x hx
      · intro p hp x hx
        rw [hns] at hp
        rw [hrooms] at hx
        rw [hcr]
        obtain ⟨pk, pv⟩ := p
        by_cases hxc : x = c
        · subst hxc
          rw [Function.update_same]
          by_cases hpri : pv = ri
          · have hpk : pk = r := by
              have hmem := lookup_mem hl
              have he := idNodup_eq h3 hp hmem (by exact hpri)
              exact congrArg Prod.fst he
            rw [hpk]
            exact setInsert_self_mem _ _
          · rw [Function.update_noteq hpri] at hx
            exact mem_setInsert_of_mem (h5 (pk, pv) hp x hx)
        · rw [Function.update_noteq hxc]
          by_cases hpri : pv = ri
          · rw [hpri, Function.update_same] at hx
            rcases mem_setInsert_iff.mp hx with hx1 | hx2
            · exact h5 (pk, pv) hp x (by rw [hpri]; exact hx1)
            · exact absurd hx2 hxc
          · rw [Function.update_noteq hpri] at hx
            exact h5 (pk, pv) hp x hx
  | none =>
      have hns := clientJoin_ns_none (c := c) hl
      have hrooms := clientJoin_rooms_none (c := c) hl
      have hfresh : ∀ p, p ∈ s.ns.roomMap → p.2 ≠ s.ns.nextRoomId :=
        fun p hp => Nat.ne_of_lt (h1 p hp)
      refine ⟨?_, ?_, ?_, ?_, ?_⟩
      · rw [hns]
        intro p hp
        rcases List.mem_append.mp hp with hp1 | hp2
        · exact Nat.lt_succ_of_lt (h1 p hp1)
        · rw [List.mem_singleton.mp hp2]
          exact Nat.lt_succ_self _
      · rw [hns]
        show (List.map Prod.fst (s.ns.roomMap ++ [(r, s.ns.nextRoomId)])).Nodup
        rw [List.map_append, List.nodup_append]
        refine ⟨h2, List.nodup_singleton r, ?_⟩
        intro a ha hb
        rw [List.mem_singleton.mp hb] at ha
        obtain ⟨p, hp, hpe⟩ := List.mem_map.mp ha
        exact lookup_none_not_key hl p hp hpe
      · rw [hns]
        show (List.map Prod.snd (s.ns.roomMap ++ [(r, s.ns.nextRoomId)])).Nodup
        rw [List.map_append, List.nodup_append]
        refine ⟨h3, List.nodup_singleton _, ?_⟩
        intro a ha hb
        rw [List.mem_singleton.mp hb] at ha
        obtain ⟨p, hp, hpe⟩ := List.mem_map.mp ha
        exact hfresh p hp hpe
      · intro p hp x hx
        rw [hns] at hp ⊢
        rw [hrooms] at hx
        rcases List.mem_append.mp hp with hp1 | hp2
        · rw [Function.update_noteq (hfresh p hp1)] at hx
          exact h4 p hp1 x hx
        · rw [List.mem_singleton.mp hp2] at hx
          rw [Function.update_same] at hx
          rw [List.mem_singleton.mp hx]
          exact hc
      · intro p hp x hx
        rw [hns] at hp
        rw [hrooms] at hx
        rw [hcr]
        rcases List.mem_append.mp hp with hp1 | hp2
        · rw [Function.update_noteq (hfresh p hp1)] at hx
          by_cases hxc : x = c
          · subst hxc
            rw [Function.update_same]
            exact mem_setInsert_of_mem (h5 p hp1 x hx)
          · rw [Function.update_noteq hxc]
            exact h5 p hp1 x hx
        · rw [List.mem_singleton.mp hp2] at hx ⊢
          rw [Function.update_same] at hx
          rw [List.mem_singleton.mp hx]
          rw [Function.update_same]
          exact setInsert_self_mem _ _

theorem clientTeardown_eq (s : Sock) (c : Nat) :
    clientTeardown s c = leaveAll (nsRemoveClient s c) c (s.clientRooms c) := rfl

theorem sockInv_teardown {s : Sock} {c : Nat} (h : SockInv s) :
    SockInv (clientTeardown s c) := by
  obtain ⟨h1, h2, h3, h4, h5⟩ := h
  rw [clientTeardown_eq]
  have hns : (leaveAll (nsRemoveClient s c) c (s.clientRooms c)).ns =
      (nsRemoveClient s c).ns := leaveAll_ns _ _ _
  have hout : ∀ p ∈ s.ns.roomMap,
      c ∉ (leaveAll (nsRemoveClient s c) c (s.clientRooms c)).rooms p.2 := by
    intro p hp hcmem
    have hc1 : c ∈ s.rooms p.2 :=
      leaveAll_rooms_mem (s := nsRemoveClient s c) _ hcmem
    have hm : p.1 ∈ s.clientRooms c := h5 p hp c hc1
    have hlk : s.ns.roomMap.lookup p.1 = some p.2 := by
      obtain ⟨pk, pv⟩ := p
      exact keyNodup_lookup h2 hp
    exact leaveAll_removes (s := nsRemoveClient s c) _ hm hlk hcmem
  refine ⟨?_, ?_, ?_, ?_, ?_⟩
  · rw [hns]; exact h1
  · rw [hns]; exact h2
  · rw [hns]; exact h3
  · intro p hp x hx
    rw [hns] at hp ⊢
    have hxc : x ≠ c := fun he => hout p hp (he ▸ hx)
    have hx1 : x ∈ s.rooms p.2 :=
      leaveAll_rooms_mem (s := nsRemoveClient s c) _ hx
    show x ∈ (s.ns.clients.filter (· ≠ c))
    rw [List.mem_filter]
    exact ⟨h4 p hp x hx1, by simp [hxc]⟩
  · intro p hp x hx
    rw [hns] at hp
    have hxc : x ≠ c := fun he => hout p hp (he ▸ hx)
    have hx1 : x ∈ s.rooms p.2 :=
      leaveAll_rooms_mem (s := nsRemoveClient s c) _ hx
    show p.1 ∈ (leaveAll (nsRemoveClient s c) c (s.clientRooms c)).clientRooms x
    rw [leaveAll_mirror_other _ hxc]
    exact h5 p hp x hx1

theorem reachSafe_inv {s : Sock} (h : ReachSafe s) : SockInv s := by
  induction h with
  | init => exact sockInv_init
  | add c _ ih => exact sockInv_add ih
  | join c r _ hc ih => exact sockInv_join ih hc
  | leave c r _ ih => exact sockInv_leave ih
  | teardown c _ ih => exact sockInv_teardown ih

/-- C8 (amended): in every state reachable by sequences of the public
operations under the server's actual call discipline — `removeClient`
performed only as the first step of a client teardown, and `Join`/`Leave`
invoked by clients currently registered in the namespace — every room's
client set is a subset of the owning namespace's client set.  (As
literally stated, with free-standing `removeClient` among the operations,
the invariant fails; see the counterexample.) -/
theorem room_subset_invariant (s : Sock) (h : ReachSafe s) : roomSubsetInv s :=
  (reachSafe_inv h).2.2.2.1

/-- C8 counterexample: the claim as stated is false.  `addClient 0`,
`Join 0 "r"`, then a bare `removeClient 0` (which exists as an operation
and does not cascade to rooms) reaches a state where room `r` still
contains client `0` but the namespace's client set is empty. -/
theorem room_subset_invariant_cex :
    Reach (nsRemoveClient (clientJoin (nsAddClient sockInit 0) 0 "r") 0) ∧
    ¬ roomSubsetInv (nsRemoveClient (clientJoin (nsAddClient sockInit 0) 0 "r") 0) :=
  ⟨Reach.remove 0 (Reach.join 0 "r" (Reach.add 0 Reach.init)),
   fun hinv => by
     have h := hinv ("r", 0) (by decide) 0 (by decide)
     revert h
     decide⟩

/-- C8 witness: the invariant holds at the safely reached state where
client `0` registered and joined room `r`. -/
theorem room_subset_invariant_witness :
    roomSubsetInv (clientJoin (nsAddClient sockInit 0) 0 "r") :=
  room_subset_invariant _
    (ReachSafe.join 0 "r" (ReachSafe.add 0 ReachSafe.init) (by decide))

end Sockx
